import Mathlib

/-!
Verification development for the schema-migration module
(playhouse/migrate.py).  The definitions below are a shallow embedding of
the module's data model and operations: strings are `List Char`, the
peewee clause tree is the inductive `Node`, database introspection results
(primary-key columns, sequence existence, CREATE TABLE text, index
metadata, DESCRIBE rows) are passed in as explicit data, and Python
exceptions become `Option`/`Except`.
-/

/-- Abstract SQL clause tree.  Mirrors the peewee node values used by the
migrator: `SQL` raw text, `Entity` identifiers, `Clause`,
`EnclosedClause`, `CommaClause`, `Expression` and `Param`. -/
inductive Node : Type
  | sql (text : List Char)
  | entity (text : List Char)
  | clause (children : List Node)
  | enclosed (children : List Node)
  | commaList (children : List Node)
  | expr (lhs : Node) (op : List Char) (rhs : Node) (flat : Bool)
  | param (value : List Char)

/-- ASCII whitespace recognised by Python's `str.strip()`. -/
def isSpace (c : Char) : Bool :=
  c = ' ' || c = '\t' || c = '\n' || c = '\r' || c = '\x0b' || c = '\x0c'

/-- Python `str.strip()`: drop whitespace from both ends. -/
def stripChars (s : List Char) : List Char :=
  ((s.dropWhile isSpace).reverse.dropWhile isSpace).reverse

/-- One greedy match of the regex `(?:[^,(]|\([^)]*\))+` starting at the
head of the input, written as a character-by-character scanner.  `acc`
holds the reversed committed match; while the scanner is inside a
parenthesised group (`\([^)]*\)`), `pend` holds the reversed pending
segment starting at its `(`.  Returns the matched prefix (possibly empty,
meaning no match starts here) and the rest of the input; a `(` that is
never closed is not consumed, exactly as the regex alternation fails on
it. -/
def matchOneAux : List Char → Option (List Char) → List Char → List Char × List Char
  | acc, none, [] => (acc.reverse, [])
  | acc, some pend, [] => (acc.reverse, pend.reverse)
  | acc, none, c :: rest =>
    if c = ',' then (acc.reverse, c :: rest)
    else if c = '(' then matchOneAux acc (some [c]) rest
    else matchOneAux (c :: acc) none rest
  | acc, some pend, c :: rest =>
    if c = ')' then matchOneAux (c :: (pend ++ acc)) none rest
    else matchOneAux acc (some (c :: pend)) rest

/-- One match of `column_split_re` at the head of the input. -/
def matchOne (s : List Char) : List Char × List Char :=
  matchOneAux [] none s

/-- Fuelled scanner implementing `column_split_re.findall`: collect
non-overlapping matches left to right, advancing one character past a
position where no match starts.  The fuel only serves termination; it is
never exhausted when it starts at the input length. -/
def findallSplitF : Nat → List Char → List (List Char)
  | 0, _ => []
  | _ + 1, [] => []
  | fuel + 1, c :: rest =>
    let mr := matchOne (c :: rest)
    if mr.1 = [] then findallSplitF fuel rest
    else mr.1 :: findallSplitF fuel mr.2

/-- `column_split_re.findall(raw_columns)`: split a CREATE TABLE body on
commas that are not inside a parenthesised group. -/
def findallSplit (s : List Char) : List (List Char) :=
  findallSplitF s.length s

/-- The cleaned column definitions of a raw column-list text:
`[col.strip() for col in column_split_re.findall(raw_columns)]`. -/
def columnDefsOf (rawColumns : List Char) : List (List Char) :=
  (findallSplit rawColumns).map stripChars

/-- Decidable check that an input is fully consumed by units of the
regex `(?:[^,(]|\([^)]*\))+`: no top-level comma, and every `(` is closed
before the end (the flag records being inside a parenthesised group). -/
def consumableAux : Bool → List Char → Bool
  | false, [] => true
  | true, [] => false
  | false, c :: rest =>
    if c = ',' then false
    else if c = '(' then consumableAux true rest
    else consumableAux false rest
  | true, c :: rest =>
    if c = ')' then consumableAux false rest
    else consumableAux true rest

/-- An input entirely consumable as one match of `column_split_re`. -/
def consumable (s : List Char) : Bool :=
  consumableAux false s

/-- A well-formed top-level column/constraint definition: nonempty, fully
consumable by the split regex (commas occur only inside a parenthesised
group and every `(` is closed), and free of leading/trailing
whitespace. -/
def TopLevelDef (d : List Char) : Prop :=
  d ≠ [] ∧ consumable d = true ∧ stripChars d = d

instance (d : List Char) : Decidable (TopLevelDef d) :=
  inferInstanceAs (Decidable (d ≠ [] ∧ consumable d = true ∧ stripChars d = d))

/-- `', '.join(defs)`. -/
def joinCommaSpace : List (List Char) → List Char
  | [] => []
  | [d] => d
  | d :: rest => d ++ ',' :: ' ' :: joinCommaSpace rest

/-- Characters matched by Python's `\w` (ASCII scope): letters, digits
and underscore. -/
def isWordChar (c : Char) : Bool :=
  c.isAlphanum || c = '_'

/-- `column_name_re.match(column_def)` for the anchored regex
`"?([\w]+)`: the leading identifier of a definition, after an optional
double quote.  `none` models the `AttributeError` raised when `.groups()`
is taken on a failed match. -/
def columnNameOf (columnDef : List Char) : Option (List Char) :=
  let body := match columnDef with
    | '"' :: rest => rest
    | other => other
  let name := body.takeWhile isWordChar
  if name = [] then none else some name

/-- `column_name.lower().startswith(('foreign', 'primary'))`. -/
def lowerStartsConstraint (columnName : List Char) : Bool :=
  let lowered := columnName.map Char.toLower
  (("foreign".data).isPrefixOf lowered) || (("primary".data).isPrefixOf lowered)

/-- Fuelled plain-text replacement: every non-overlapping occurrence of
`old` (scanning left to right) is replaced by `new`.  This is the net
effect of both `str.replace` and the rebuild's
`re.sub('("?)table("?)', ...)` call, whose quote groups are captured and
re-emitted unchanged.  An empty needle leaves the string unchanged. -/
def replaceAllF : Nat → List Char → List Char → List Char → List Char
  | 0, _, _, s => s
  | _ + 1, _, _, [] => []
  | fuel + 1, old, new, c :: rest =>
    if !old.isEmpty && old.isPrefixOf (c :: rest) then
      new ++ replaceAllF fuel old new ((c :: rest).drop old.length)
    else c :: replaceAllF fuel old new rest

/-- Replace every occurrence of `old` by `new` in `s`. -/
def replaceAll (old new s : List Char) : List Char :=
  replaceAllF s.length old new s

/-- Group 2 of `column_re` after a candidate `(` separator: the pattern
`(.+)\)` matched against the rest of the input.  `.` does not cross a
newline, and the greedy group backtracks to the last `)` of the
newline-free run, which must leave at least one captured character. -/
def group2 (t : List Char) : Option (List Char) :=
  let u := t.takeWhile (fun c => c != '\n')
  match u.reverse.dropWhile (fun c => c != ')') with
  | ')' :: pre => if pre.isEmpty then none else some pre.reverse
  | _ => none

/-- Matching `column_re = (.+?)\((.+)\)` at a fixed start position: the
non-greedy group 1 grows one character at a time (never across a
newline); at each `(` with a nonempty group 1 the engine tries to finish
with `(.+)\)`, and on failure the `(` itself is absorbed into
group 1. -/
def tryG1 : List Char → List Char → Option (List Char × List Char)
  | _, [] => none
  | acc, c :: rest =>
    if c = '\n' then none
    else if c == '(' && !acc.isEmpty then
      match group2 rest with
      | some g2 => some (acc.reverse, g2)
      | none => tryG1 (c :: acc) rest
    else tryG1 (c :: acc) rest

/-- `column_re.search(create_table)`: leftmost match of
`(.+?)\((.+)\)`, yielding the header before the column list and the raw
column list.  `none` models the `AttributeError` raised on `.groups()`
of a failed search. -/
def columnReSearch : List Char → Option (List Char × List Char)
  | [] => none
  | c :: rest =>
    match tryG1 [] (c :: rest) with
    | some found => some found
    | none => columnReSearch rest

/-- Index metadata gathered by `_get_indexes`: name, defining SQL, and
the ordered indexed column names. -/
structure IndexMetadata where
  name : List Char
  sql : List Char
  columns : List (List Char)

/-- The per-definition loop of `SqliteMigrator._update_column`: walk the
cleaned definitions, rewriting the target column with `fn` (a falsy
result — `None` or the empty string — drops it), keeping the rest, and
collecting the rebuilt definitions, the new data-copy column names and
the original data-copy column names.  Definitions whose leading
identifier lowercases to a `foreign`/`primary` prefix are kept but
excluded from both name lists.  `none` models the `AttributeError`
raised when a leading identifier cannot be parsed. -/
def processColumnDefs (defs : List (List Char)) (columnToUpdate : List Char)
    (fn : List Char → List Char → Option (List Char)) :
    Option (List (List Char) × List (List Char) × List (List Char)) :=
  match defs with
  | [] => some ([], [], [])
  | columnDef :: rest =>
    match columnNameOf columnDef with
    | none => none
    | some columnName =>
      if columnName = columnToUpdate then
        match fn columnName columnDef with
        | some newColumnDef =>
          if newColumnDef = [] then processColumnDefs rest columnToUpdate fn
          else
            match columnNameOf newColumnDef with
            | none => none
            | some newName =>
              match processColumnDefs rest columnToUpdate fn with
              | some (ds, ns, os) => some (newColumnDef :: ds, newName :: ns, columnName :: os)
              | none => none
        | none => processColumnDefs rest columnToUpdate fn
      else
        match processColumnDefs rest columnToUpdate fn with
        | some (ds, ns, os) =>
          some (columnDef :: ds,
            if lowerStartsConstraint columnName then ns else columnName :: ns,
            if lowerStartsConstraint columnName then os else columnName :: os)
        | none => none

/-- `dict(zip(pairs)).get(key)`: the value of the last pair whose first
component equals the key. -/
def lookupLast (pairs : List (List Char × List Char)) (key : List Char) :
    Option (List Char) :=
  pairs.foldl (fun acc pair => if pair.1 = key then some pair.2 else acc) none

/-- The index-recreation tail of `_update_column`: an index whose column
list contains the target column is recreated with the target textually
replaced by its surviving name, or skipped when the column did not
survive (`new_column` falsy); any other index is re-emitted verbatim. -/
def recreateIndexes (indexes : List IndexMetadata) (columnToUpdate : List Char)
    (newColumn : Option (List Char)) : List Node :=
  indexes.flatMap (fun index =>
    if columnToUpdate ∈ index.columns then
      match newColumn with
      | some nc =>
        if nc.isEmpty then [] else [Node.sql (replaceAll columnToUpdate nc index.sql)]
      | none => []
    else [Node.sql index.sql])

/-- The fixed temporary-table suffix of the SQLite rebuild. -/
def tmpSuffix : List Char :=
  ("__tmp__".data)

/-- `ALTER TABLE old RENAME TO new` — `SchemaMigrator.rename_table`. -/
def rename_table_clause (oldName newName : List Char) : Node :=
  Node.clause [Node.sql ("ALTER TABLE".data), Node.entity oldName,
    Node.sql ("RENAME TO".data), Node.entity newName]

/-- `SqliteMigrator._update_column` in generate mode.  The CREATE TABLE
text and the pre-existing index metadata stand for the results of the
`sqlite_master` introspection queries.  The result is the ordered list of
generated statements (the trailing rename is produced through the
operation wrapper, whose run emits exactly this clause); `none` models
the exceptions raised when `column_re.search` or `column_name_re.match`
fail. -/
def update_column (createTable : List Char) (indexes : List IndexMetadata)
    (table columnToUpdate : List Char)
    (fn : List Char → List Char → Option (List Char)) : Option (List Node) :=
  match columnReSearch createTable with
  | none => none
  | some (rawCreate, rawColumns) =>
    match processColumnDefs (columnDefsOf rawColumns) columnToUpdate fn with
    | none => none
    | some (newColumnDefs, newColumnNames, originalColumnNames) =>
      let tempTable := table ++ tmpSuffix
      let create := replaceAll table tempTable rawCreate
      let columns := joinCommaSpace newColumnDefs
      let queries : List Node :=
        [Node.clause [Node.sql ("DROP TABLE IF EXISTS".data), Node.entity tempTable],
         Node.sql (stripChars create ++ (" (".data) ++ columns ++ (")".data)),
         Node.clause [Node.sql ("INSERT INTO".data), Node.entity tempTable,
           Node.enclosed (newColumnNames.map Node.entity),
           Node.sql ("SELECT".data),
           Node.commaList (originalColumnNames.map Node.entity),
           Node.sql ("FROM".data), Node.entity table],
         Node.clause [Node.sql ("DROP TABLE".data), Node.entity table],
         rename_table_clause tempTable table]
      let newColumn := lookupLast (originalColumnNames.zip newColumnNames) columnToUpdate
      some (queries ++ recreateIndexes indexes columnToUpdate newColumn)

/-- The data-bearing column names of a definition list: the parseable
leading identifiers that do not carry a `foreign`/`primary` constraint
prefix. -/
def dataColumnNames (defs : List (List Char)) : List (List Char) :=
  (defs.filterMap columnNameOf).filter (fun nm => !lowerStartsConstraint nm)

/-- A field default: a static value or a zero-argument callable. -/
inductive FieldDefault
  | value (v : List Char)
  | callable (produce : Unit → List Char)

/-- The field descriptor attributes used by the migrator: nullability,
default, foreign-key flag with its referenced column, the mutable
name/db_column attributes, and the `db_value` conversion collaborator. -/
structure MigField where
  null : Bool
  default : Option FieldDefault
  isForeignKeyField : Bool
  toField : Option (List Char)
  name : List Char
  dbColumn : List Char
  dbValue : Option (List Char) → List Char

/-- Python truthiness test `not x` for an optional string. -/
def optFalsy : Option (List Char) → Bool
  | none => true
  | some s => s.isEmpty

/-- `SchemaMigrator.apply_default` in generate mode: resolve the default
(invoking a callable at generation time) and emit the backfill
`UPDATE table SET column = Param(db_value(default))` clause. -/
def apply_default (table columnName : List Char) (field : MigField) : Node :=
  let resolved : Option (List Char) :=
    match field.default with
    | some (FieldDefault.callable produce) => some (produce ())
    | some (FieldDefault.value v) => some v
    | none => none
  Node.clause [Node.sql ("UPDATE".data), Node.entity table, Node.sql ("SET".data),
    Node.expr (Node.entity columnName) ("=".data) (Node.param (field.dbValue resolved)) true]

/-- `SchemaMigrator.alter_add_column` in generate mode, with the field's
mutation made explicit: the field is rendered by the compiler
collaborator `fieldDefinition` with `null` forced to true and
`name`/`db_column` set to the requested column, and afterwards `null` is
restored while the name attributes keep the new value.  Returns the
generated clause together with the field's final state. -/
def alter_add_column (fieldDefinition : MigField → Node) (table columnName : List Char)
    (field : MigField) : Node × MigField :=
  let fieldNull := field.null
  let forced := { field with null := true, name := columnName, dbColumn := columnName }
  let fieldClause := fieldDefinition forced
  let restored := { forced with null := fieldNull }
  (Node.clause [Node.sql ("ALTER TABLE".data), Node.entity table,
    Node.sql ("ADD COLUMN".data), fieldClause], restored)

/-- The base `_alter_column` node list. -/
def alter_column_nodes (table column : List Char) : List Node :=
  [Node.sql ("ALTER TABLE".data), Node.entity table,
   Node.sql ("ALTER COLUMN".data), Node.entity column]

/-- `SchemaMigrator.add_not_null` in generate mode. -/
def add_not_null_clause (table column : List Char) : Node :=
  Node.clause (alter_column_nodes table column ++ [Node.sql ("SET NOT NULL".data)])

/-- The deferred operations produced by `SchemaMigrator.add_column`:
each wraps the migrator method it will invoke and its captured
arguments. -/
inductive MigOp
  | alterAddColumnOp (table columnName : List Char) (field : MigField)
  | applyDefaultOp (table columnName : List Char) (field : MigField)
  | addNotNullOp (table column : List Char)

/-- `SchemaMigrator.add_column`: raise a `ValueError` for a non-nullable
field with no default or a foreign key with a falsy `to_field`;
otherwise defer the add-column operation, followed for non-nullable
fields by the backfill and the set-not-null operations. -/
def add_column (table columnName : List Char) (field : MigField) :
    Except (List Char) (List MigOp) :=
  if !field.null && field.default.isNone then
    Except.error (columnName ++ (" is not null but has no default".data))
  else if field.isForeignKeyField && optFalsy field.toField then
    Except.error ("Foreign keys must specify a to_field.".data)
  else
    let operations := [MigOp.alterAddColumnOp table columnName field]
    if !field.null then
      Except.ok (operations ++
        [MigOp.applyDefaultOp table columnName field,
         MigOp.addNotNullOp table columnName])
    else
      Except.ok operations

/-- Whether an `add_column` result is a raised configuration error. -/
def exceptIsError : Except (List Char) (List MigOp) → Bool
  | Except.error _ => true
  | Except.ok _ => false

/-- Running one deferred operation in generate mode, given the compiler
collaborator that renders a field definition. -/
def runMigOp (fieldDefinition : MigField → Node) : MigOp → Node
  | MigOp.alterAddColumnOp table columnName field =>
    (alter_add_column fieldDefinition table columnName field).1
  | MigOp.applyDefaultOp table columnName field => apply_default table columnName field
  | MigOp.addNotNullOp table column => add_not_null_clause table column

/-- `'%s_%s_seq' % (table, pk)`. -/
def seqNameFor (table pk : List Char) : List Char :=
  table ++ ("_".data) ++ pk ++ ("_seq".data)

/-- `PostgresqlMigrator.rename_table` in generate mode.  `pkNames`
stands for the primary-key introspection result and `seqExists` for the
`information_schema.sequences` existence query. -/
def pg_rename_table (pkNames : List (List Char)) (seqExists : List Char → Bool)
    (oldName newName : List Char) : List Node :=
  let operations := [rename_table_clause oldName newName]
  match pkNames with
  | [pk] =>
    if seqExists (seqNameFor oldName pk) then
      operations ++ [rename_table_clause (seqNameFor oldName pk) (seqNameFor newName pk)]
    else operations
  | _ => operations

/-- A row of the MySQL `DESCRIBE` introspection, as unpacked into
`MySQLColumn`. -/
structure MySQLColumn where
  name : List Char
  definition : List Char
  null : List Char
  pk : List Char
  default : List Char
  extra : List Char

/-- `MySQLColumn.is_pk`. -/
def MySQLColumn.is_pk (col : MySQLColumn) : Bool :=
  col.pk = ("PRI".data)

/-- `MySQLColumn.is_unique`. -/
def MySQLColumn.is_unique (col : MySQLColumn) : Bool :=
  col.pk = ("UNI".data)

/-- `MySQLColumn.is_null`. -/
def MySQLColumn.is_null (col : MySQLColumn) : Bool :=
  col.null = ("YES".data)

/-- `MySQLColumn.sql(column_name, is_null)`: rebuild the column clause
for a MODIFY statement.  When the column's `extra` attribute is truthy
the source appends `SQL(extra)` where `extra` is an unbound name, so
evaluation raises `NameError`; that exception is the error branch
here. -/
def MySQLColumn.sql (col : MySQLColumn) (columnName : Option (List Char))
    (isNull : Option Bool) : Except (List Char) Node :=
  let useNull := isNull.getD col.is_null
  let useName := columnName.getD col.name
  let front := [Node.entity useName, Node.sql col.definition]
    ++ (if col.is_unique then [Node.sql ("UNIQUE".data)] else [])
    ++ (if !useNull then [Node.sql ("NOT NULL".data)] else [])
    ++ (if col.is_pk then [Node.sql ("PRIMARY KEY".data)] else [])
  if !col.extra.isEmpty then
    Except.error ("NameError: name extra is not defined".data)
  else
    Except.ok (Node.clause front)

/-! ### Lemmas about the column-split scanner -/

/-- The committed state of the one-match scanner, reversed. -/
def stateChars (acc : List Char) : Option (List Char) → List Char
  | none => acc
  | some pend => pend ++ acc

/-- A continuation at which one match of the split regex must stop:
either the end of the input or a comma. -/
def CommaStopper (t : List Char) : Prop :=
  t = [] ∨ ∃ u, t = ',' :: u

theorem matchOneAux_consume (d : List Char) :
    ∀ (acc : List Char) (m : Option (List Char)) (t : List Char),
      consumableAux m.isSome d = true → CommaStopper t →
      matchOneAux acc m (d ++ t) = ((stateChars acc m).reverse ++ d, t) := by
  induction d with
  | nil =>
    intro acc m t hc ht
    cases m with
    | none =>
      rcases ht with rfl | ⟨u, rfl⟩
      · simp [matchOneAux, stateChars]
      · simp [matchOneAux, stateChars]
    | some pend => simp [consumableAux] at hc
  | cons c d ih =>
    intro acc m t hc ht
    cases m with
    | none =>
      by_cases h1 : c = ','
      · rw [Option.isSome_none, consumableAux, if_pos h1] at hc
        exact absurd hc (by simp)
      · by_cases h2 : c = '('
        · subst h2
          rw [Option.isSome_none, consumableAux, if_neg h1, if_pos rfl] at hc
          have := ih acc (some ['(']) t (by simpa using hc) ht
          rw [List.cons_append, matchOneAux, if_neg h1, if_pos rfl, this]
          simp [stateChars]
        · rw [Option.isSome_none, consumableAux, if_neg h1, if_neg h2] at hc
          have := ih (c :: acc) none t (by simpa using hc) ht
          rw [List.cons_append, matchOneAux, if_neg h1, if_neg h2, this]
          simp [stateChars]
    | some pend =>
      by_cases h1 : c = ')'
      · subst h1
        rw [Option.isSome_some, consumableAux, if_pos rfl] at hc
        have := ih (')' :: (pend ++ acc)) none t (by simpa using hc) ht
        rw [List.cons_append, matchOneAux, if_pos rfl, this]
        simp [stateChars]
      · rw [Option.isSome_some, consumableAux, if_neg h1] at hc
        have := ih acc (some (c :: pend)) t (by simpa using hc) ht
        rw [List.cons_append, matchOneAux, if_neg h1, this]
        simp [stateChars]

theorem matchOne_consume (d t : List Char) (hc : consumable d = true)
    (ht : CommaStopper t) : matchOne (d ++ t) = (d, t) := by
  have := matchOneAux_consume d [] none t (by simpa [consumable] using hc) ht
  simpa [matchOne, stateChars] using this

theorem consumableAux_append (a : List Char) :
    ∀ (m : Bool) (b : List Char), consumableAux m a = true →
      consumableAux false b = true → consumableAux m (a ++ b) = true := by
  induction a with
  | nil =>
    intro m b ha hb
    cases m with
    | false => simpa using hb
    | true => simp [consumableAux] at ha
  | cons c a ih =>
    intro m b ha hb
    cases m with
    | false =>
      by_cases h1 : c = ','
      · rw [consumableAux, if_pos h1] at ha
        exact absurd ha (by simp)
      · by_cases h2 : c = '('
        · rw [consumableAux, if_neg h1, if_pos h2] at ha
          rw [List.cons_append, consumableAux, if_neg h1, if_pos h2]
          exact ih true b ha hb
        · rw [consumableAux, if_neg h1, if_neg h2] at ha
          rw [List.cons_append, consumableAux, if_neg h1, if_neg h2]
          exact ih false b ha hb
    | true =>
      by_cases h1 : c = ')'
      · rw [consumableAux, if_pos h1] at ha
        rw [List.cons_append, consumableAux, if_pos h1]
        exact ih false b ha hb
      · rw [consumableAux, if_neg h1] at ha
        rw [List.cons_append, consumableAux, if_neg h1]
        exact ih true b ha hb

theorem consumable_spaces (pre : List Char) (h : ∀ c ∈ pre, c = ' ') :
    consumable pre = true := by
  induction pre with
  | nil => rfl
  | cons c pre ih =>
    have hc := h c (List.mem_cons_self ..)
    subst hc
    have h1 : ¬(' ' = ',') := by decide
    have h2 : ¬(' ' = '(') := by decide
    rw [consumable, consumableAux, if_neg h1, if_neg h2]
    exact ih fun c hc => h c (List.mem_cons_of_mem _ hc)

theorem dropWhile_space_lead (pre rest : List Char) (h : ∀ c ∈ pre, c = ' ') :
    List.dropWhile isSpace (pre ++ rest) = List.dropWhile isSpace rest := by
  induction pre with
  | nil => rfl
  | cons c pre ih =>
    have hc := h c (List.mem_cons_self ..)
    subst hc
    have hs : isSpace ' ' = true := by decide
    rw [List.cons_append, List.dropWhile_cons, hs, if_pos rfl]
    exact ih fun c hc => h c (List.mem_cons_of_mem _ hc)

theorem stripChars_space_lead (pre d : List Char) (h : ∀ c ∈ pre, c = ' ') :
    stripChars (pre ++ d) = stripChars d := by
  unfold stripChars
  rw [dropWhile_space_lead pre d h]

theorem findallSplitF_nil (fuel : Nat) : findallSplitF fuel [] = [] := by
  cases fuel <;> rfl

theorem findallSplitF_join (ds : List (List Char)) :
    ∀ (pre : List Char) (fuel : Nat),
      (∀ c ∈ pre, c = ' ') →
      (∀ d ∈ ds, TopLevelDef d) →
      (ds = [] → pre = []) →
      (pre ++ joinCommaSpace ds).length ≤ fuel →
      (findallSplitF fuel (pre ++ joinCommaSpace ds)).map stripChars = ds := by
  induction ds with
  | nil =>
    intro pre fuel hpre hds hnil hfuel
    have : pre = [] := hnil rfl
    subst this
    simp [joinCommaSpace, findallSplitF_nil]
  | cons d rest ih =>
    intro pre fuel hpre hds hnil hfuel
    obtain ⟨hdne, hdcons, hdstrip⟩ := hds d (List.mem_cons_self ..)
    have hcons : consumable (pre ++ d) = true :=
      consumableAux_append pre false d (consumable_spaces pre hpre) hdcons
    have hstrip : stripChars (pre ++ d) = d := by
      rw [stripChars_space_lead pre d hpre, hdstrip]
    have hne : pre ++ d ≠ [] := by
      simp [List.append_eq_nil, hdne]
    obtain ⟨c, cs, hpd⟩ : ∃ c cs, pre ++ d = c :: cs := by
      cases h : pre ++ d with
      | nil => exact absurd h hne
      | cons c cs => exact ⟨c, cs, rfl⟩
    cases rest with
    | nil =>
      show (findallSplitF fuel (pre ++ d)).map stripChars = [d]
      have hfuel' : (pre ++ d).length ≤ fuel := hfuel
      have hm : matchOne (pre ++ d) = (pre ++ d, []) := by
        have := matchOne_consume (pre ++ d) [] hcons (Or.inl rfl)
        simpa using this
      rw [hpd] at hm hfuel' ⊢
      cases fuel with
      | zero => simp at hfuel'
      | succ k =>
        simp only [findallSplitF, hm, if_neg (hpd ▸ hne), findallSplitF_nil,
          List.map_cons, List.map_nil]
        rw [← hpd, hstrip]
    | cons d2 rest2 =>
      have hj : joinCommaSpace (d :: d2 :: rest2)
          = d ++ ',' :: ' ' :: joinCommaSpace (d2 :: rest2) := rfl
      rw [hj]
      have hassoc : pre ++ (d ++ ',' :: ' ' :: joinCommaSpace (d2 :: rest2))
          = (pre ++ d) ++ (',' :: ' ' :: joinCommaSpace (d2 :: rest2)) := by
        simp [List.append_assoc]
      rw [hassoc]
      have hm : matchOne ((pre ++ d) ++ (',' :: ' ' :: joinCommaSpace (d2 :: rest2)))
          = (pre ++ d, ',' :: ' ' :: joinCommaSpace (d2 :: rest2)) :=
        matchOne_consume (pre ++ d) _ hcons (Or.inr ⟨_, rfl⟩)
      have hdpos : 0 < d.length := List.length_pos.mpr hdne
      have hlen0 : pre.length + d.length + 2 + (joinCommaSpace (d2 :: rest2)).length ≤ fuel := by
        have h0 := hfuel
        rw [hj] at h0
        simp [List.length_append] at h0
        omega
      cases fuel with
      | zero => omega
      | succ k =>
        rw [hpd] at hm
        rw [hpd]
        rw [List.cons_append] at hm ⊢
        simp only [findallSplitF, hm, if_neg (hpd ▸ hne)]
        have hk : 2 + (joinCommaSpace (d2 :: rest2)).length ≤ k := by
          have : pre.length + d.length = (c :: cs).length := by rw [← hpd]; simp
          simp at this
          omega
        cases k with
        | zero => omega
        | succ k2 =>
          have hm2 : matchOne (',' :: ' ' :: joinCommaSpace (d2 :: rest2))
              = ([], ',' :: ' ' :: joinCommaSpace (d2 :: rest2)) := by
            simp [matchOne, matchOneAux]
          simp only [findallSplitF, hm2, if_pos rfl]
          have hrest := ih [' '] k2 (by intro c hc; simpa using hc)
            (fun x hx => hds x (List.mem_cons_of_mem _ hx))
            (by intro h; exact absurd h (by simp))
            (by simp; omega)
          have hsp : [' '] ++ joinCommaSpace (d2 :: rest2)
              = ' ' :: joinCommaSpace (d2 :: rest2) := rfl
          rw [hsp] at hrest
          simp only [if_true]
          rw [List.map_cons, hrest, ← hpd, hstrip]

/-- C1: splitting a comma-joined list of well-formed top-level
definitions with the balanced-parenthesis split of the SQLite rebuild
(and stripping each piece, as `_update_column` does) recovers exactly
the top-level definitions: commas inside a nested parenthesis — a
type's precision spec or a multi-column constraint — do not split. -/
theorem sqlite_column_split_exact (ds : List (List Char))
    (h : ∀ d ∈ ds, TopLevelDef d) :
    columnDefsOf (joinCommaSpace ds) = ds := by
  have := findallSplitF_join ds [] (joinCommaSpace ds).length
    (by intro c hc; simp at hc) h (fun _ => rfl) (by simp)
  simpa [columnDefsOf, findallSplit] using this

/-- C1 witness: a body with a parenthesized numeric precision and a
multi-column UNIQUE constraint splits into exactly its three top-level
definitions. -/
theorem sqlite_column_split_exact_witness :
    (∀ d ∈ [("\"id\" INTEGER NOT NULL PRIMARY KEY".data),
            ("price NUMERIC(10,2)".data),
            ("UNIQUE(\"a\", \"b\")".data)], TopLevelDef d) ∧
    columnDefsOf (joinCommaSpace
        [("\"id\" INTEGER NOT NULL PRIMARY KEY".data),
         ("price NUMERIC(10,2)".data),
         ("UNIQUE(\"a\", \"b\")".data)])
      = [("\"id\" INTEGER NOT NULL PRIMARY KEY".data),
         ("price NUMERIC(10,2)".data),
         ("UNIQUE(\"a\", \"b\")".data)] :=
  ⟨by decide, sqlite_column_split_exact _ (by decide)⟩

/-! ### Lemmas about the rebuild's definition loop -/

theorem columnNameOf_ne_nil {d nm : List Char} (h : columnNameOf d = some nm) :
    nm ≠ [] := by
  simp only [columnNameOf] at h
  split at h
  · simp at h
  · next h1 =>
    simp only [Option.some.injEq] at h
    subst h
    exact h1

theorem processColumnDefs_facts (defs : List (List Char)) (target : List Char)
    (fn : List Char → List Char → Option (List Char)) :
    ∀ ds ns os, processColumnDefs defs target fn = some (ds, ns, os) →
      ns.length = os.length ∧ ∀ n ∈ ns, n ≠ [] := by
  induction defs with
  | nil =>
    intro ds ns os h
    simp only [processColumnDefs, Option.some.injEq, Prod.mk.injEq] at h
    obtain ⟨rfl, rfl, rfl⟩ := h
    exact ⟨rfl, by simp⟩
  | cons d rest ih =>
    intro ds ns os h
    rw [processColumnDefs] at h
    rcases hname : columnNameOf d with _ | nm
    · simp [hname] at h
    · simp only [hname] at h
      by_cases htar : nm = target
      · rw [if_pos htar] at h
        rcases hfn : fn nm d with _ | nd
        · simp only [hfn] at h
          exact ih ds ns os h
        · simp only [hfn] at h
          by_cases hnd : nd = []
          · rw [if_pos hnd] at h
            exact ih ds ns os h
          · rw [if_neg hnd] at h
            rcases hnn : columnNameOf nd with _ | nn
            · simp [hnn] at h
            · simp only [hnn] at h
              rcases hrec : processColumnDefs rest target fn with _ | ⟨ds', ns', os'⟩
              · simp [hrec] at h
              · simp only [hrec] at h
                simp only [Option.some.injEq, Prod.mk.injEq] at h
                obtain ⟨rfl, rfl, rfl⟩ := h
                obtain ⟨hlen, hne⟩ := ih _ _ _ hrec
                refine ⟨by simp [hlen], ?_⟩
                intro n hn
                rcases List.mem_cons.mp hn with rfl | hn'
                · exact columnNameOf_ne_nil hnn
                · exact hne n hn'
      · rw [if_neg htar] at h
        rcases hrec : processColumnDefs rest target fn with _ | ⟨ds', ns', os'⟩
        · simp [hrec] at h
        · simp only [hrec] at h
          simp only [Option.some.injEq, Prod.mk.injEq] at h
          obtain ⟨rfl, rfl, rfl⟩ := h
          obtain ⟨hlen, hne⟩ := ih _ _ _ hrec
          constructor
          · by_cases hcon : lowerStartsConstraint nm <;> simp [hcon, hlen]
          · intro n hn
            by_cases hcon : lowerStartsConstraint nm
            · rw [if_pos hcon] at hn
              exact hne n hn
            · rw [if_neg hcon] at hn
              rcases List.mem_cons.mp hn with rfl | hn'
              · exact columnNameOf_ne_nil hname
              · exact hne n hn'

theorem lookupLast_mem_aux (pairs : List (List Char × List Char)) (key v : List Char) :
    ∀ acc : Option (List Char),
      pairs.foldl (fun acc pair => if pair.1 = key then some pair.2 else acc) acc = some v →
      v ∈ pairs.map Prod.snd ∨ acc = some v := by
  induction pairs with
  | nil => intro acc h; exact Or.inr h
  | cons p rest ih =>
    intro acc h
    rw [List.foldl_cons] at h
    rcases ih _ h with hmem | hacc
    · exact Or.inl (List.mem_cons_of_mem _ hmem)
    · by_cases hk : p.1 = key
      · rw [if_pos hk] at hacc
        simp only [Option.some.injEq] at hacc
        subst hacc
        exact Or.inl (by simp)
      · rw [if_neg hk] at hacc
        exact Or.inr hacc

theorem lookupLast_mem {pairs : List (List Char × List Char)} {key v : List Char}
    (h : lookupLast pairs key = some v) : v ∈ pairs.map Prod.snd := by
  rcases lookupLast_mem_aux pairs key v none h with hmem | habs
  · exact hmem
  · simp at habs

theorem zip_snd_mem {α β : Type} (a : List α) (b : List β) (v : β)
    (h : v ∈ (a.zip b).map Prod.snd) : v ∈ b := by
  rcases List.mem_map.mp h with ⟨p, hp, hv⟩
  obtain ⟨x, y⟩ := p
  cases hv
  exact (List.of_mem_zip hp).2

theorem recreateIndexes_eq (indexes : List IndexMetadata) (target : List Char)
    (nc : Option (List Char)) (h : ∀ v, nc = some v → v ≠ []) :
    recreateIndexes indexes target nc = indexes.flatMap (fun index =>
      if target ∈ index.columns then
        match nc with
        | some v => [Node.sql (replaceAll target v index.sql)]
        | none => []
      else [Node.sql index.sql]) := by
  unfold recreateIndexes
  congr 1
  funext index
  by_cases hmem : target ∈ index.columns
  · rw [if_pos hmem, if_pos hmem]
    cases nc with
    | none => rfl
    | some v =>
      rcases v with _ | ⟨x, xs⟩
      · exact absurd rfl (h [] rfl)
      · rfl
  · rw [if_neg hmem, if_neg hmem]

theorem processColumnDefs_no_match (defs : List (List Char)) (target : List Char)
    (fn : List Char → List Char → Option (List Char))
    (h : ∀ d ∈ defs, (columnNameOf d).isSome = true ∧ ¬(columnNameOf d = some target)) :
    processColumnDefs defs target fn = some (defs, dataColumnNames defs, dataColumnNames defs) := by
  induction defs with
  | nil => rfl
  | cons d rest ih =>
    obtain ⟨hsome, hneq⟩ := h d (List.mem_cons_self ..)
    rcases hname : columnNameOf d with _ | nm
    · rw [hname] at hsome; simp at hsome
    · have htar : ¬(nm = target) := by
        intro hh
        exact hneq (hh ▸ hname)
      rw [processColumnDefs]
      simp only [hname]
      rw [if_neg htar]
      simp only [ih (fun x hx => h x (List.mem_cons_of_mem _ hx))]
      unfold dataColumnNames
      rw [List.filterMap_cons_some hname]
      by_cases hcon : lowerStartsConstraint nm <;> simp [hcon, List.filter_cons]

/-- Unfolding of `update_column` once the CREATE TABLE parse and the
definition loop have succeeded: the five table-swap statements followed
by the index-recreation statements. -/
theorem update_column_unfold
    (createTable : List Char) (indexes : List IndexMetadata)
    (table columnToUpdate : List Char)
    (fn : List Char → List Char → Option (List Char))
    (rawCreate rawColumns : List Char) (ds ns os : List (List Char))
    (hs : columnReSearch createTable = some (rawCreate, rawColumns))
    (hp : processColumnDefs (columnDefsOf rawColumns) columnToUpdate fn
      = some (ds, ns, os)) :
    update_column createTable indexes table columnToUpdate fn =
      some ([Node.clause [Node.sql ("DROP TABLE IF EXISTS".data),
               Node.entity (table ++ tmpSuffix)],
             Node.sql (stripChars (replaceAll table (table ++ tmpSuffix) rawCreate)
               ++ (" (".data) ++ joinCommaSpace ds ++ (")".data)),
             Node.clause [Node.sql ("INSERT INTO".data), Node.entity (table ++ tmpSuffix),
               Node.enclosed (ns.map Node.entity),
               Node.sql ("SELECT".data),
               Node.commaList (os.map Node.entity),
               Node.sql ("FROM".data), Node.entity table],
             Node.clause [Node.sql ("DROP TABLE".data), Node.entity table],
             rename_table_clause (table ++ tmpSuffix) table]
        ++ recreateIndexes indexes columnToUpdate (lookupLast (os.zip ns) columnToUpdate)) := by
  rw [update_column]
  simp only [hs, hp]

/-- C2: whenever the SQLite rebuild parses the CREATE TABLE text and
processes the column definitions, it generates exactly, in order:
drop-if-exists of the temporary table (original name plus the fixed
suffix), creation of the temporary table from the rewritten header plus
the rebuilt column list, the INSERT INTO temp (new names) SELECT
original names FROM original data copy, drop of the original table, and
the rename of the temporary table back to the original name — and the
two column-name lists of the copy have equal length, corresponding
positionally. -/
theorem sqlite_rebuild_statement_order
    (createTable : List Char) (indexes : List IndexMetadata)
    (table columnToUpdate : List Char)
    (fn : List Char → List Char → Option (List Char))
    (rawCreate rawColumns : List Char) (ds ns os : List (List Char))
    (hs : columnReSearch createTable = some (rawCreate, rawColumns))
    (hp : processColumnDefs (columnDefsOf rawColumns) columnToUpdate fn
      = some (ds, ns, os)) :
    update_column createTable indexes table columnToUpdate fn =
      some ([Node.clause [Node.sql ("DROP TABLE IF EXISTS".data),
               Node.entity (table ++ tmpSuffix)],
             Node.sql (stripChars (replaceAll table (table ++ tmpSuffix) rawCreate)
               ++ (" (".data) ++ joinCommaSpace ds ++ (")".data)),
             Node.clause [Node.sql ("INSERT INTO".data), Node.entity (table ++ tmpSuffix),
               Node.enclosed (ns.map Node.entity),
               Node.sql ("SELECT".data),
               Node.commaList (os.map Node.entity),
               Node.sql ("FROM".data), Node.entity table],
             Node.clause [Node.sql ("DROP TABLE".data), Node.entity table],
             rename_table_clause (table ++ tmpSuffix) table]
        ++ recreateIndexes indexes columnToUpdate (lookupLast (os.zip ns) columnToUpdate))
    ∧ ns.length = os.length := by
  exact ⟨update_column_unfold createTable indexes table columnToUpdate fn
    rawCreate rawColumns ds ns os hs hp,
    (processColumnDefs_facts _ _ _ _ _ _ hp).1⟩

/-- C2 witness: a concrete rebuild (dropping column a of
CREATE TABLE t (a INT, b INT)) parses, processes and produces the
statement list. -/
theorem sqlite_rebuild_statement_order_witness :
    (update_column (("CREATE TABLE t (a INT, b INT)").data) []
      (("t").data) (("a").data) (fun _ _ => none)).isSome = true := by
  rw [(sqlite_rebuild_statement_order (("CREATE TABLE t (a INT, b INT)").data) []
    (("t").data) (("a").data) (fun _ _ => none) _ _ _ _ _ rfl rfl).1]
  rfl

/-- C3: the statements a rebuild appends after the five table-swap
statements handle every pre-existing index as follows: an index whose
column list contains the target column is recreated with the original
index SQL, the old column name textually substituted by the surviving
name, when the column survived (the data-copy lists map the target to a
new name), and is not recreated at all when the column was dropped; an
index that does not reference the target column is re-emitted
verbatim. -/
theorem sqlite_rebuild_index_statements
    (createTable : List Char) (indexes : List IndexMetadata)
    (table columnToUpdate : List Char)
    (fn : List Char → List Char → Option (List Char))
    (rawCreate rawColumns : List Char) (ds ns os : List (List Char))
    (hs : columnReSearch createTable = some (rawCreate, rawColumns))
    (hp : processColumnDefs (columnDefsOf rawColumns) columnToUpdate fn
      = some (ds, ns, os)) :
    (update_column createTable indexes table columnToUpdate fn).map
        (fun qs => qs.drop 5) =
      some (indexes.flatMap (fun index =>
        if columnToUpdate ∈ index.columns then
          match lookupLast (os.zip ns) columnToUpdate with
          | some newColumn =>
            [Node.sql (replaceAll columnToUpdate newColumn index.sql)]
          | none => []
        else [Node.sql index.sql])) := by
  have hupdate := update_column_unfold createTable indexes table
    columnToUpdate fn rawCreate rawColumns ds ns os hs hp
  rw [hupdate]
  have hnonempty : ∀ v, lookupLast (os.zip ns) columnToUpdate = some v → v ≠ [] := by
    intro v hv
    exact (processColumnDefs_facts _ _ _ _ _ _ hp).2 v
      (zip_snd_mem os ns v (lookupLast_mem hv))
  rw [Option.map_some']
  rw [recreateIndexes_eq indexes columnToUpdate _ hnonempty]
  rfl

/-- C3 witness: a concrete rename rebuild with one index on the renamed
column and one index on another column. -/
theorem sqlite_rebuild_index_statements_witness :
    ((update_column (("CREATE TABLE story (id INT, pub_date DATE)").data)
        [⟨("idx1").data, ("CREATE INDEX idx1 ON story (pub_date)").data,
          [("pub_date").data]⟩,
         ⟨("idx2").data, ("CREATE INDEX idx2 ON story (id)").data, [("id").data]⟩]
        (("story").data) (("pub_date").data)
        (fun columnName columnDef =>
          some (replaceAll columnName (("publish_date").data) columnDef))).map
      (fun qs => qs.drop 5)).isSome = true := by
  rw [sqlite_rebuild_index_statements (("CREATE TABLE story (id INT, pub_date DATE)").data)
    [⟨("idx1").data, ("CREATE INDEX idx1 ON story (pub_date)").data, [("pub_date").data]⟩,
     ⟨("idx2").data, ("CREATE INDEX idx2 ON story (id)").data, [("id").data]⟩]
    (("story").data) (("pub_date").data)
    (fun columnName columnDef =>
      some (replaceAll columnName (("publish_date").data) columnDef))
    _ _ _ _ _ rfl rfl]
  rfl

/-- C8: when no definition of the parsed column list has the target
column as its leading identifier, the rebuild completes without
signalling an error and the table is unchanged: every definition passes
through to the rebuilt list and both data-copy column-name lists equal
the original data-bearing column names. -/
theorem sqlite_rebuild_missing_column
    (createTable : List Char) (indexes : List IndexMetadata)
    (table columnToUpdate : List Char)
    (fn : List Char → List Char → Option (List Char))
    (rawCreate rawColumns : List Char)
    (hs : columnReSearch createTable = some (rawCreate, rawColumns))
    (hnames : ∀ d ∈ columnDefsOf rawColumns,
      (columnNameOf d).isSome = true ∧ ¬(columnNameOf d = some columnToUpdate)) :
    update_column createTable indexes table columnToUpdate fn =
      some ([Node.clause [Node.sql ("DROP TABLE IF EXISTS".data),
               Node.entity (table ++ tmpSuffix)],
             Node.sql (stripChars (replaceAll table (table ++ tmpSuffix) rawCreate)
               ++ (" (".data) ++ joinCommaSpace (columnDefsOf rawColumns) ++ (")".data)),
             Node.clause [Node.sql ("INSERT INTO".data), Node.entity (table ++ tmpSuffix),
               Node.enclosed ((dataColumnNames (columnDefsOf rawColumns)).map Node.entity),
               Node.sql ("SELECT".data),
               Node.commaList ((dataColumnNames (columnDefsOf rawColumns)).map Node.entity),
               Node.sql ("FROM".data), Node.entity table],
             Node.clause [Node.sql ("DROP TABLE".data), Node.entity table],
             rename_table_clause (table ++ tmpSuffix) table]
        ++ recreateIndexes indexes columnToUpdate
            (lookupLast ((dataColumnNames (columnDefsOf rawColumns)).zip
              (dataColumnNames (columnDefsOf rawColumns))) columnToUpdate)) := by
  exact update_column_unfold createTable indexes table columnToUpdate fn
    rawCreate rawColumns (columnDefsOf rawColumns)
    (dataColumnNames (columnDefsOf rawColumns)) (dataColumnNames (columnDefsOf rawColumns))
    hs (processColumnDefs_no_match _ _ fn hnames)

/-- C8 witness: rebuilding CREATE TABLE t (a INT, b INT) for the absent
column zzz succeeds and passes both definitions through. -/
theorem sqlite_rebuild_missing_column_witness :
    (update_column (("CREATE TABLE t (a INT, b INT)").data) []
      (("t").data) (("zzz").data) (fun _ _ => none)).isSome = true := by
  rw [sqlite_rebuild_missing_column (("CREATE TABLE t (a INT, b INT)").data) []
    (("t").data) (("zzz").data) (fun _ _ => none) _ _ rfl (by decide)]
  rfl

/-- C4 counterexample: the definition foreignx INTEGER has leading
identifier foreignx, which is neither FOREIGN nor PRIMARY (even
case-insensitively) and does not match the target column, yet the
rebuild loop excludes it from both data-copy column-name lists (they
come out empty), because the source tests a lowercased prefix rather
than the whole token. -/
theorem sqlite_constraint_prefix_counterexample :
    columnNameOf (("foreignx INTEGER").data) = some (("foreignx").data) ∧
    ¬((("foreignx").data).map Char.toLower = ("foreign".data) ∨
      (("foreignx").data).map Char.toLower = ("primary".data)) ∧
    (("foreignx").data) ≠ (("zzz").data) ∧
    processColumnDefs [("foreignx INTEGER").data] (("zzz").data) (fun _ d => some d)
      = some ([("foreignx INTEGER").data], [], []) :=
  ⟨rfl, by decide, by decide, rfl⟩

/-- C4 (amended): in the rebuild's definition loop, a definition whose
leading identifier does not match the target column is always kept in
the rebuilt column list, and its identifier joins both data-copy lists
exactly when its lowercased form does not start with foreign or
primary; in particular FOREIGN/PRIMARY-led constraint definitions are
kept but excluded from both data-copy lists. -/
theorem sqlite_constraint_prefix_amended
    (d : List Char) (rest : List (List Char)) (target : List Char)
    (fn : List Char → List Char → Option (List Char)) (nm : List Char)
    (hname : columnNameOf d = some nm) (hne : nm ≠ target) :
    processColumnDefs (d :: rest) target fn =
      (processColumnDefs rest target fn).map (fun result =>
        (d :: result.1,
         if lowerStartsConstraint nm then result.2.1 else nm :: result.2.1,
         if lowerStartsConstraint nm then result.2.2 else nm :: result.2.2)) := by
  rw [processColumnDefs]
  simp only [hname]
  rw [if_neg hne]
  rcases hrec : processColumnDefs rest target fn with _ | ⟨ds', ns', os'⟩
  · simp [hrec]
  · simp [hrec]

/-- C4 witness for the amended claim: a FOREIGN KEY constraint
definition is kept in the rebuilt list but excluded from the data-copy
lists, while an ordinary column appears in both. -/
theorem sqlite_constraint_prefix_amended_witness :
    processColumnDefs [("FOREIGN KEY (a) REFERENCES other (id)").data, ("b INT").data]
        (("zzz").data) (fun _ d => some d)
      = some ([("FOREIGN KEY (a) REFERENCES other (id)").data, ("b INT").data],
          [("b").data], [("b").data]) := by
  rw [sqlite_constraint_prefix_amended (("FOREIGN KEY (a) REFERENCES other (id)").data)
    [("b INT").data] (("zzz").data) (fun _ d => some d) (("FOREIGN").data) rfl (by decide)]
  rfl

/-- C5: for a non-nullable field with a default (and no foreign-key
configuration error) add_column generates exactly three deferred
operations, in order add-column, backfill-default, set-not-null; for a
nullable field exactly the single add-column operation; running the
first renders the ALTER TABLE ADD COLUMN clause with the field forced
nullable, and the others render the backfill UPDATE and the SET NOT
NULL clause. -/
theorem add_column_operation_sequence (table columnName : List Char) (field : MigField)
    (hfk : ¬(field.isForeignKeyField = true ∧ optFalsy field.toField = true)) :
    (field.null = false → field.default.isNone = false →
      add_column table columnName field =
        Except.ok [MigOp.alterAddColumnOp table columnName field,
          MigOp.applyDefaultOp table columnName field,
          MigOp.addNotNullOp table columnName]) ∧
    (field.null = true →
      add_column table columnName field =
        Except.ok [MigOp.alterAddColumnOp table columnName field]) ∧
    (∀ fieldDefinition : MigField → Node,
      runMigOp fieldDefinition (MigOp.alterAddColumnOp table columnName field) =
        Node.clause [Node.sql ("ALTER TABLE".data), Node.entity table,
          Node.sql ("ADD COLUMN".data),
          fieldDefinition { field with null := true, name := columnName, dbColumn := columnName }] ∧
      runMigOp fieldDefinition (MigOp.applyDefaultOp table columnName field) =
        apply_default table columnName field ∧
      runMigOp fieldDefinition (MigOp.addNotNullOp table columnName) =
        add_not_null_clause table columnName) := by
  have hfkb : ¬((field.isForeignKeyField && optFalsy field.toField) = true) := by
    intro hh
    exact hfk (by simpa [Bool.and_eq_true] using hh)
  refine ⟨?_, ?_, ?_⟩
  · intro hnull hdef
    rw [add_column, if_neg (by simp [hnull, hdef]), if_neg hfkb, if_pos (by simp [hnull])]
    rfl
  · intro hnull
    rw [add_column, if_neg (by simp [hnull]), if_neg hfkb, if_neg (by simp [hnull])]
  · intro fieldDefinition
    exact ⟨rfl, rfl, rfl⟩

/-- C5 witness: adding a non-nullable text column with default open
produces the three operations in order. -/
theorem add_column_operation_sequence_witness :
    add_column (("tbl").data) (("status").data)
        ⟨false, some (FieldDefault.value (("open").data)), false, none, [], [],
          fun _ => []⟩ =
      Except.ok [MigOp.alterAddColumnOp (("tbl").data) (("status").data)
          ⟨false, some (FieldDefault.value (("open").data)), false, none, [], [],
            fun _ => []⟩,
        MigOp.applyDefaultOp (("tbl").data) (("status").data)
          ⟨false, some (FieldDefault.value (("open").data)), false, none, [], [],
            fun _ => []⟩,
        MigOp.addNotNullOp (("tbl").data) (("status").data)] :=
  (add_column_operation_sequence (("tbl").data) (("status").data)
    ⟨false, some (FieldDefault.value (("open").data)), false, none, [], [],
      fun _ => []⟩ (by simp)).1 rfl rfl

/-- C6: add_column raises its configuration error — before any SQL is
executed, generation being pure — exactly when the field is
non-nullable with no default or a foreign key with a falsy referenced
column; every other field specification generates operations without
error. -/
theorem add_column_error_condition (table columnName : List Char) (field : MigField) :
    exceptIsError (add_column table columnName field) = true ↔
      ((field.null = false ∧ field.default.isNone = true) ∨
       (field.isForeignKeyField = true ∧ optFalsy field.toField = true)) := by
  cases hn : field.null <;> cases hd : field.default.isNone <;>
    cases hf : field.isForeignKeyField <;> cases ht : optFalsy field.toField <;>
      simp [add_column, exceptIsError, hn, hd, hf, ht]

/-- C7: the Postgres rename_table appends the derived sequence rename
exactly when primary-key introspection returns a single column and the
derived sequence name exists; with zero or several primary-key columns
only the table-rename clause is produced. -/
theorem postgres_rename_table_sequence (pkNames : List (List Char))
    (seqExists : List Char → Bool) (oldName newName : List Char) :
    ((∀ pk, pkNames = [pk] → seqExists (seqNameFor oldName pk) = true →
        pg_rename_table pkNames seqExists oldName newName =
          [rename_table_clause oldName newName,
           rename_table_clause (seqNameFor oldName pk) (seqNameFor newName pk)]) ∧
     (∀ pk, pkNames = [pk] → seqExists (seqNameFor oldName pk) = false →
        pg_rename_table pkNames seqExists oldName newName =
          [rename_table_clause oldName newName]) ∧
     (pkNames.length ≠ 1 →
        pg_rename_table pkNames seqExists oldName newName =
          [rename_table_clause oldName newName])) := by
  refine ⟨?_, ?_, ?_⟩
  · intro pk hpk hseq
    subst hpk
    simp [pg_rename_table, hseq]
  · intro pk hpk hseq
    subst hpk
    simp [pg_rename_table, hseq]
  · intro hlen
    rcases pkNames with _ | ⟨pk, rest⟩
    · rfl
    · rcases rest with _ | ⟨pk2, rest2⟩
      · simp at hlen
      · rfl

/-- C7 witness: renaming story to stories with single primary key id
and an existing sequence appends the sequence rename. -/
theorem postgres_rename_table_sequence_witness :
    pg_rename_table [("id").data] (fun _ => true) (("story").data) (("stories").data) =
      [rename_table_clause (("story").data) (("stories").data),
       rename_table_clause (seqNameFor (("story").data) (("id").data))
         (seqNameFor (("stories").data) (("id").data))] :=
  (postgres_rename_table_sequence [("id").data] (fun _ => true)
    (("story").data) (("stories").data)).1 (("id").data) rfl rfl

/-- C9: evaluating the reconstructed MySQL column clause for an
introspected column with a non-empty extra attribute does not produce a
clause ending in the extra text: the source appends `SQL(extra)` where
`extra` is an unbound name, so the call raises NameError, here at the
concrete auto_increment column of the failing input. -/
theorem mysql_column_sql_extra_name_error :
    MySQLColumn.sql
        ⟨("id").data, ("int(11)").data, ("NO").data, ("PRI").data, [],
          ("auto_increment").data⟩ none none =
      Except.error (("NameError: name extra is not defined").data) := rfl

/-- C10: generating the ADD COLUMN clause leaves the field's
nullability flag at its original value — it is forced nullable only
while the definition is rendered — while the name and db_column
attributes remain permanently set to the requested column name, and the
rendered clause uses the forced-nullable field. -/
theorem alter_add_column_frame_effect (fieldDefinition : MigField → Node)
    (table columnName : List Char) (field : MigField) :
    (alter_add_column fieldDefinition table columnName field).2 =
        { field with name := columnName, dbColumn := columnName } ∧
    (alter_add_column fieldDefinition table columnName field).1 =
      Node.clause [Node.sql ("ALTER TABLE".data), Node.entity table,
        Node.sql ("ADD COLUMN".data),
        fieldDefinition { field with null := true, name := columnName, dbColumn := columnName }] :=
  ⟨rfl, rfl⟩
